import Mathlib

/-!
A verification development for the sage patchbot client (`patchbot.py`).
The scorer (`rate_ticket`, `compare_machines`), the selector (`get_ticket`),
the staged test pipeline (`test_a_ticket`), the retrying reporter and the
baseline self-test check are embedded as executable Lean definitions and
their specified properties are proved or refuted below.
-/

namespace Patchbot

/-- A report previously submitted to the server for some ticket: the machine
signature of the bot that produced it, the base version it was tested
against, and the resulting status string. -/
structure Report where
  machine : List String
  base : String
  status : String
deriving DecidableEq, Repr

/-- An entry of a ticket's `depends_on` list: either another ticket id
(an integer) or a version string. -/
inductive Dep where
  | tid (n : Int)
  | ver (s : String)
deriving DecidableEq, Repr

/-- A ticket record as consumed by `rate_ticket`: the fields read by the
scorer, plus the prior reports attached to the ticket (`ticket['reports']`,
consulted through `current_reports`).  `component` is optional because the
code guards its access with `if 'component' in ticket`. -/
structure Ticket where
  id : Int
  authors : List String
  participants : List String
  patches : List String
  depends_on : List Dep
  spkgs : List String
  component : Option String
  status : String
  priority : String
  retry : Bool
  reports : List Report
deriving DecidableEq, Repr

/-- The configuration snapshot fields used by the scorer, selector and
baseline check (`conf` in the source). -/
structure Conf where
  base : String
  trusted_authors : List String
  bonus : List (String × Int)
  machine : List String
  machine_match : Option Nat
deriving DecidableEq, Repr

/-- Split a character list at every dot. -/
def split_dots : List Char → List (List Char)
  | [] => [[]]
  | c :: cs =>
    if c = '.' then [] :: split_dots cs
    else
      match split_dots cs with
      | [] => [[c]]
      | g :: gs => (c :: g) :: gs

/-- Parse a non-empty all-digit character list as a number. -/
def chars_to_nat? (cs : List Char) : Option Nat :=
  if cs ≠ [] ∧ cs.all (fun c => c.isDigit) then
    some (cs.foldl (fun acc c => acc * 10 + (c.toNat - 48)) 0)
  else none

/-- Numeric components of a dotted version string (a non-numeric component
counts as 0). -/
def version_components (s : String) : List Nat :=
  (split_dots s.data).map (fun g => (chars_to_nat? g).getD 0)

/-- Lexicographic three-way comparison of numeric component lists. -/
def compare_nat_lists : List Nat → List Nat → Int
  | [], [] => 0
  | [], _ :: _ => -1
  | _ :: _, [] => 1
  | a :: as, b :: bs =>
    if a < b then -1 else if b < a then 1 else compare_nat_lists as bs

/-- Modelled from the spec: `compare_version` lives in the repository's
`util` module, which is not among the sources here.  The spec describes it
only as deciding whether a dependency's version identifier is newer than the
configured base, so it is modelled as the usual ordering of dotted numeric
version strings: negative when `a` is older than `b`. -/
def compare_version (a b : String) : Int :=
  compare_nat_lists (version_components a) (version_components b)

/-- Modelled from the spec: `current_reports` lives in the repository's
`util` module, which is not among the sources here.  The spec describes the
reports consulted by the scorer as "every prior report on this ticket at the
same base version", so it is modelled as filtering the ticket's report list
by base version. -/
def current_reports (t : Ticket) (base : String) : List Report :=
  t.reports.filter (fun r => r.base == base)

/-- Truncation of a machine signature to the configured match depth
(`a[:machine_match]` when a depth is configured, the whole signature
otherwise). -/
def truncate_machine (machine_match : Option Nat) (l : List String) : List String :=
  match machine_match with
  | some n => l.take n
  | none => l

/-- `compare_machines(a, b, machine_match)` for list-format signatures:
truncate both signatures to the match depth, take the element-wise
inequality vector (`1` for a differing element), and append a trailing `1`
when the lengths of the two truncated signatures differ. -/
def compare_machines (a b : List String) (machine_match : Option Nat) : List Nat :=
  (List.zipWith (fun x y => if x = y then 0 else 1)
      (truncate_machine machine_match a) (truncate_machine machine_match b)) ++
    (if (truncate_machine machine_match a).length
        = (truncate_machine machine_match b).length then [] else [1])

/-- Strict lexicographic comparison of comparison vectors, as Python's
list `<` computes it. -/
def listLtb : List Nat → List Nat → Bool
  | [], [] => false
  | [], _ :: _ => true
  | _ :: _, [] => false
  | a :: as, b :: bs => decide (a < b) || (decide (a = b) && listLtb as bs)

/-- Non-strict counterpart of `listLtb`. -/
def listLeb (x y : List Nat) : Bool := !(listLtb y x)

/-- Python's binary `min` on comparison vectors: the second argument only
when it is strictly smaller. -/
def listMin (x y : List Nat) : List Nat := if listLtb y x then y else x

/-- `bonus.get(key, 0)`: the configured bonus for a key, defaulting to 0. -/
def lookup_bonus (bonus : List (String × Int)) (k : String) : Int :=
  match bonus.find? (fun p => p.1 == k) with
  | some p => p.2
  | none => 0

/-- The author loop of `rate_ticket`: walks the authors, aborting with
`none` at the first author outside the trusted set, otherwise accumulating
the authors' bonuses. -/
def author_rating (conf : Conf) : List String → Option Int
  | [] => some 0
  | a :: rest =>
    if conf.trusted_authors.contains a then
      (author_rating conf rest).map (fun s => lookup_bonus conf.bonus a + s)
    else
      none

/-- The dependency test of `rate_ticket`: a dependency blocks the ticket
when it is a string containing a dot that compares newer than the
configured base. -/
def dep_blocks (base : String) : Dep → Bool
  | .tid _ => false
  | .ver s => s.data.contains '.' && decide (compare_version base s < 0)

/-- The redundancy vector of `rate_ticket`: starting from the sentinel
`(100,)`, fold the lexicographic minimum of the machine-comparison vectors
of all prior reports at the configured base, unless the ticket is flagged
retry. -/
def redundancy_vector (t : Ticket) (conf : Conf) : List Nat :=
  if t.retry then [100]
  else
    (current_reports t conf.base).foldl
      (fun red r => listMin red (compare_machines r.machine conf.machine conf.machine_match))
      [100]

/-- A score as returned by `rate_ticket`: redundancy vector, rating, and
negated ticket id. -/
abbrev Score := List Nat × Int × Int

/-- `rate_ticket(ticket, **conf)`: `none` models Python's `return None`
(skip); otherwise the triple `(redundancy, rating, -id)` is returned. -/
def rate_ticket (t : Ticket) (conf : Conf) : Option Score :=
  if t.spkgs ≠ [] then none          -- can't handle these yet
  else if t.patches = [] then none   -- nothing to do
  else if t.depends_on.any (fun d => dep_blocks conf.base d) then none
  else
    match author_rating conf t.authors with
    | none => none
    | some ar =>
      let rating : Int := ar
        + ((t.participants.map (lookup_bonus conf.bonus)).sum)
        + (t.participants.length : Int)
        + (match t.component with
           | some c => lookup_bonus conf.bonus c
           | none => 0)
        + lookup_bonus conf.bonus t.status
        + lookup_bonus conf.bonus t.priority
        + lookup_bonus conf.bonus (toString t.id)
      let redundancy := redundancy_vector t conf
      if redundancy.getLast? = some 0 then none   -- already did this one
      else some (redundancy, rating, -t.id)

/-- `filter_on_authors(tickets, authors)`: keep the tickets whose author
set is contained in the given author list. -/
def filter_on_authors (tickets : List Ticket) (authors : List String) : List Ticket :=
  tickets.filter (fun t => t.authors.all (fun a => authors.contains a))

/-- Non-strict lexicographic order on scores, as Python compares the
`(redundancy, rating, -id)` tuples during `all.sort()`. -/
def scoreLeb (x y : Score) : Bool :=
  listLtb x.1 y.1 ||
    (decide (x.1 = y.1) &&
      (decide (x.2.1 < y.2.1) ||
        (decide (x.2.1 = y.2.1) && decide (x.2.2 ≤ y.2.2))))

/-- The order the selector sorts scored `(score, ticket)` pairs by. -/
def pairLE (x y : Score × Ticket) : Prop := scoreLeb x.1 y.1 = true

instance : DecidableRel pairLE := fun x y => by
  unfold pairLE
  infer_instance

/-- The scored candidate pool of `get_ticket`: the fetched tickets,
filtered on trusted authors, each paired with its rating when
`rate_ticket` does not skip it. -/
def scored_pairs (conf : Conf) (tickets : List Ticket) : List (Score × Ticket) :=
  (filter_on_authors tickets conf.trusted_authors).filterMap
    (fun t => (rate_ticket t conf).map (fun s => (s, t)))

/-- List mode of `get_ticket` (`return_all=True`): all scored candidates,
sorted ascending by score (`all.sort()`). -/
def get_ticket_all (conf : Conf) (tickets : List Ticket) : List (Score × Ticket) :=
  List.insertionSort pairLE (scored_pairs conf tickets)

/-- `get_ticket`: the last element of the ascending-sorted candidate list
(`all[-1]`), or nothing when no candidate survives. -/
def get_ticket (conf : Conf) (tickets : List Ticket) : Option (Score × Ticket) :=
  (get_ticket_all conf tickets).getLast?

/-! The staged pipeline of `test_a_ticket`.  The external operations
(patch application, build, test run) and the behavior of each configured
plugin are abstracted as boolean outcomes; the control flow around them —
the `state` variable, the per-plugin `try/except/finally`, the outer
`try/except` — is embedded directly. -/

/-- The outcomes of the external operations one run of the pipeline
encounters: whether `pull_from_trac` succeeds, whether the build succeeds,
whether the test run succeeds, and for each configured plugin (in
configured order) its name and whether its call raises. -/
structure PipelineWorld where
  apply_ok : Bool
  build_ok : Bool
  tests_ok : Bool
  plugins : List (String × Bool)    -- (name, raises?)
deriving DecidableEq, Repr

/-- What one run of the pipeline produced: the final `state`, the recorded
`plugins_results`, whether the test command was ever invoked and how many
plugins were executed. -/
structure PipelineRun where
  state : String
  plugins_results : List (String × Bool)
  tests_ran : Bool
  plugins_ran : Nat
deriving DecidableEq, Repr

/-- The plugin loop: each plugin is called inside `try/except Exception`,
so a raising plugin records `(name, False)` and the loop continues with
the next plugin. -/
def run_plugins : List (String × Bool) → List (String × Bool)
  | [] => []
  | (name, raises) :: rest => (name, !raises) :: run_plugins rest

/-- The `status` table mapping the last completed state to the reported
status string. -/
def status (state : String) : Option String :=
  if state = "started" then some "ApplyFailed"
  else if state = "applied" then some "BuildFailed"
  else if state = "built" then some "TestsFailed"
  else if state = "tested" then some "TestsPassed"
  else if state = "failed_plugin" then some "PluginFailed"
  else none

/-- The body of `test_a_ticket`'s `try` block: apply, build, run every
plugin, run the tests, then downgrade `tested` to `failed_plugin` when
some plugin failed.  A failing stage raises, leaving `state` at the last
completed stage (the surrounding `except` only logs). -/
def test_a_ticket (w : PipelineWorld) : PipelineRun :=
  if !w.apply_ok then ⟨"started", [], false, 0⟩
  else if !w.build_ok then ⟨"applied", [], false, 0⟩
  else
    let results := run_plugins w.plugins
    if !w.tests_ok then ⟨"built", results, true, w.plugins.length⟩
    else if results.all (fun p => p.2) then ⟨"tested", results, true, w.plugins.length⟩
    else ⟨"failed_plugin", results, true, w.plugins.length⟩

/-- What the reporting retry loop of `test_a_ticket` did: how many posts
were attempted, how many idle-interval sleeps happened, and whether a
post succeeded. -/
structure ReportLoopResult where
  posts : Nat
  sleeps : Nat
  succeeded : Bool
deriving DecidableEq, Repr

/-- The retry loop `for _ in range(5)`: attempt the post; on success break
out; on an `HTTPError` sleep the idle interval and try again; when the
range is exhausted, the `else` branch logs the failure. -/
def report_retry (succeeds : Nat → Bool) : Nat → Nat → ReportLoopResult
  | _, 0 => ⟨0, 0, false⟩
  | i, n + 1 =>
    if succeeds i then ⟨1, 0, true⟩
    else
      ⟨(report_retry succeeds (i + 1) n).posts + 1,
       (report_retry succeeds (i + 1) n).sleeps + 1,
       (report_retry succeeds (i + 1) n).succeeded⟩

/-- The reporting phase of `test_a_ticket`: up to 5 attempts, starting at
attempt 0. -/
def report_with_retries (succeeds : Nat → Bool) : ReportLoopResult :=
  report_retry succeeds 0 5

/-- The `good` predicate of the baseline check in `main`: a report counts
as verifying the clean install when its machine signature equals the
configured one exactly and its status is `TestsPassed`. -/
def good (conf : Conf) (r : Report) : Bool :=
  r.machine == conf.machine && r.status == "TestsPassed"

/-- The baseline check of `main`: the self-test of ticket 0 is skipped
exactly when some current report on the clean ticket at the local base is
`good`. -/
def skip_base_check (conf : Conf) (clean : Ticket) (base : String) : Bool :=
  (current_reports clean base).any (fun r => good conf r)

/-- The machine-equivalence relation the specification describes for
machine signatures: equality of the two signatures truncated to the
configured prefix depth.  Stated from the spec's words, to be compared
with the full equality `good` actually uses. -/
def machine_equiv_claimed (conf : Conf) (m : List String) : Bool :=
  truncate_machine conf.machine_match m == truncate_machine conf.machine_match conf.machine

/-! Order-theoretic facts about the lexicographic comparison of
comparison vectors. -/

theorem listLtb_irrefl : ∀ l : List Nat, listLtb l l = false
  | [] => rfl
  | a :: as => by
    simp [listLtb, listLtb_irrefl as]

theorem listLtb_trans : ∀ a b c : List Nat,
    listLtb a b = true → listLtb b c = true → listLtb a c = true
  | [], [], [] => by simp [listLtb]
  | [], [], _ :: _ => fun _ _ => rfl
  | [], _ :: _, [] => by simp [listLtb]
  | [], _ :: _, _ :: _ => fun _ _ => rfl
  | _ :: _, [], _ => by simp [listLtb]
  | _ :: _, _ :: _, [] => by simp [listLtb]
  | a :: as, b :: bs, c :: cs => by
    simp only [listLtb, Bool.or_eq_true, Bool.and_eq_true, decide_eq_true_eq]
    rintro (h₁ | ⟨rfl, h₁⟩) (h₂ | ⟨rfl, h₂⟩)
    · exact Or.inl (Nat.lt_trans h₁ h₂)
    · exact Or.inl h₁
    · exact Or.inl h₂
    · exact Or.inr ⟨rfl, listLtb_trans as bs cs h₁ h₂⟩

theorem listLtb_conn : ∀ a b : List Nat,
    listLtb a b = false → listLtb b a = false → a = b
  | [], [] => fun _ _ => rfl
  | [], _ :: _ => by simp [listLtb]
  | _ :: _, [] => by simp [listLtb]
  | a :: as, b :: bs => by
    simp only [listLtb, Bool.or_eq_false_iff, Bool.and_eq_false_iff,
      decide_eq_false_iff_not]
    rintro ⟨h₁, h₂⟩ ⟨h₃, h₄⟩
    have hab : a = b := by omega
    subst hab
    rcases h₂ with h₂ | h₂
    · exact absurd rfl h₂
    · rcases h₄ with h₄ | h₄
      · exact absurd rfl h₄
      · rw [listLtb_conn as bs h₂ h₄]

theorem listLtb_asymm {a b : List Nat} (h : listLtb a b = true) :
    listLtb b a = false := by
  by_contra hc
  have hba : listLtb b a = true := by
    cases hc2 : listLtb b a
    · exact absurd hc2 hc
    · rfl
  have := listLtb_trans a b a h hba
  rw [listLtb_irrefl] at this
  exact Bool.false_ne_true this

theorem listLeb_refl (a : List Nat) : listLeb a a = true := by
  simp [listLeb, listLtb_irrefl]

theorem listLeb_trans {a b c : List Nat}
    (h₁ : listLeb a b = true) (h₂ : listLeb b c = true) : listLeb a c = true := by
  simp only [listLeb, Bool.not_eq_true'] at *
  cases hca : listLtb c a
  · rfl
  · exfalso
    cases hbc : listLtb b c
    · have hb : b = c := listLtb_conn b c hbc h₂
      subst hb
      rw [hca] at h₁
      exact Bool.noConfusion h₁
    · have hba := listLtb_trans b c a hbc hca
      rw [hba] at h₁
      exact Bool.noConfusion h₁

theorem listMin_le_left (x y : List Nat) : listLeb (listMin x y) x = true := by
  unfold listMin
  split
  · next h => simp [listLeb, listLtb_asymm h]
  · exact listLeb_refl x

theorem listMin_le_right (x y : List Nat) : listLeb (listMin x y) y = true := by
  unfold listMin
  split
  · exact listLeb_refl y
  · next h => simp [listLeb, h]

theorem listMin_cases (x y : List Nat) : listMin x y = x ∨ listMin x y = y := by
  unfold listMin
  split
  · exact Or.inr rfl
  · exact Or.inl rfl

/-- The fold of `listMin` over mapped elements is a member of the initial
vector together with the mapped elements, and a lower bound of all of
them. -/
theorem foldl_listMin_spec {α : Type} (f : α → List Nat) :
    ∀ (l : List α) (init : List Nat),
      ((l.foldl (fun red r => listMin red (f r)) init = init ∨
        ∃ x ∈ l, l.foldl (fun red r => listMin red (f r)) init = f x) ∧
       listLeb (l.foldl (fun red r => listMin red (f r)) init) init = true ∧
       ∀ x ∈ l, listLeb (l.foldl (fun red r => listMin red (f r)) init) (f x) = true)
  | [], init => by simp [listLeb_refl]
  | a :: l, init => by
    obtain ⟨hmem, hinit, hall⟩ := foldl_listMin_spec f l (listMin init (f a))
    simp only [List.foldl_cons]
    refine ⟨?_, ?_, ?_⟩
    · rcases hmem with hmem | ⟨x, hx, hmem⟩
      · rcases listMin_cases init (f a) with hc | hc
        · exact Or.inl (hmem.trans hc)
        · exact Or.inr ⟨a, List.mem_cons_self a l, hmem.trans hc⟩
      · exact Or.inr ⟨x, List.mem_cons_of_mem a hx, hmem⟩
    · exact listLeb_trans hinit (listMin_le_left init (f a))
    · intro x hx
      rcases List.mem_cons.mp hx with rfl | hx
      · exact listLeb_trans hinit (listMin_le_right init (f x))
      · exact hall x hx

/-! Order-theoretic facts about the score order used by the selector. -/

theorem scoreLeb_refl (x : Score) : scoreLeb x x = true := by
  simp [scoreLeb, listLtb_irrefl]

theorem scoreLeb_total (x y : Score) :
    scoreLeb x y = true ∨ scoreLeb y x = true := by
  simp only [scoreLeb, Bool.or_eq_true, Bool.and_eq_true, decide_eq_true_eq]
  cases hxy : listLtb x.1 y.1
  · cases hyx : listLtb y.1 x.1
    · have h := listLtb_conn x.1 y.1 hxy hyx
      rcases lt_trichotomy x.2.1 y.2.1 with h2 | h2 | h2
      · exact Or.inl (Or.inr ⟨h, Or.inl h2⟩)
      · rcases le_total x.2.2 y.2.2 with h3 | h3
        · exact Or.inl (Or.inr ⟨h, Or.inr ⟨h2, h3⟩⟩)
        · exact Or.inr (Or.inr ⟨h.symm, Or.inr ⟨h2.symm, h3⟩⟩)
      · exact Or.inr (Or.inr ⟨h.symm, Or.inl h2⟩)
    · exact Or.inr (Or.inl rfl)
  · exact Or.inl (Or.inl rfl)

theorem scoreLeb_trans {x y z : Score}
    (h₁ : scoreLeb x y = true) (h₂ : scoreLeb y z = true) :
    scoreLeb x z = true := by
  simp only [scoreLeb, Bool.or_eq_true, Bool.and_eq_true, decide_eq_true_eq] at *
  rcases h₁ with h₁ | ⟨e₁, h₁⟩
  · rcases h₂ with h₂ | ⟨e₂, h₂⟩
    · exact Or.inl (listLtb_trans _ _ _ h₁ h₂)
    · left; rw [← e₂]; exact h₁
  · rcases h₂ with h₂ | ⟨e₂, h₂⟩
    · left; rw [e₁]; exact h₂
    · refine Or.inr ⟨e₁.trans e₂, ?_⟩
      rcases h₁ with h₁ | ⟨f₁, g₁⟩
      · rcases h₂ with h₂ | ⟨f₂, g₂⟩
        · exact Or.inl (lt_trans h₁ h₂)
        · left; rw [← f₂]; exact h₁
      · rcases h₂ with h₂ | ⟨f₂, g₂⟩
        · left; rw [f₁]; exact h₂
        · exact Or.inr ⟨f₁.trans f₂, le_trans g₁ g₂⟩

instance : IsTotal (Score × Ticket) pairLE :=
  ⟨fun x y => scoreLeb_total x.1 y.1⟩

instance : IsTrans (Score × Ticket) pairLE :=
  ⟨fun _ _ _ h₁ h₂ => scoreLeb_trans h₁ h₂⟩

/-- The last element of a list, when it exists, is a member. -/
theorem getLast?_mem : ∀ {l : List (Score × Ticket)} {m : Score × Ticket},
    l.getLast? = some m → m ∈ l
  | [], _, hm => by simp at hm
  | [a], m, hm => by
    simp only [List.getLast?_singleton, Option.some.injEq] at hm
    simp [hm]
  | a :: b :: l, m, hm => by
    rw [List.getLast?_cons_cons] at hm
    exact List.mem_cons_of_mem a (getLast?_mem hm)

/-- In a list sorted by the score order, every element is below the last
element. -/
theorem sorted_getLast?_max : ∀ {l : List (Score × Ticket)},
    l.Sorted pairLE → ∀ {m : Score × Ticket}, l.getLast? = some m →
    ∀ x ∈ l, scoreLeb x.1 m.1 = true
  | [], _, _, hm => by simp at hm
  | [a], _, m, hm => by
    simp only [List.getLast?_singleton, Option.some.injEq] at hm
    intro x hx
    rcases List.mem_singleton.mp hx with rfl
    rw [← hm]
    exact scoreLeb_refl _
  | a :: b :: l, hs, m, hm => by
    rw [List.getLast?_cons_cons] at hm
    intro x hx
    rcases List.mem_cons.mp hx with rfl | hx
    · have hmem : m ∈ b :: l := getLast?_mem hm
      exact (List.sorted_cons.mp hs).1 m hmem
    · exact sorted_getLast?_max (List.sorted_cons.mp hs).2 hm x hx

/-! Characterizations of the author loop and of `rate_ticket`. -/

theorem author_rating_eq_none_iff (conf : Conf) : ∀ as : List String,
    author_rating conf as = none ↔
      ∃ a ∈ as, conf.trusted_authors.contains a = false
  | [] => by simp [author_rating]
  | a :: as => by
    by_cases h : conf.trusted_authors.contains a
    · rw [author_rating, if_pos h, Option.map_eq_none',
        author_rating_eq_none_iff conf as]
      constructor
      · rintro ⟨x, hx, hxf⟩
        exact ⟨x, List.mem_cons_of_mem a hx, hxf⟩
      · rintro ⟨x, hx, hxf⟩
        rcases List.mem_cons.mp hx with rfl | hx
        · rw [h] at hxf
          cases hxf
        · exact ⟨x, hx, hxf⟩
    · rw [author_rating, if_neg h]
      simp only [true_iff]
      exact ⟨a, List.mem_cons_self a as, by simpa using h⟩

theorem author_rating_eq_some (conf : Conf) : ∀ (as : List String) (r : Int),
    author_rating conf as = some r →
      r = (as.map (lookup_bonus conf.bonus)).sum
  | [], r => by
    rw [author_rating]
    intro h
    cases h
    simp
  | a :: as, r => by
    by_cases h : conf.trusted_authors.contains a
    · rw [author_rating, if_pos h, Option.map_eq_some']
      rintro ⟨s, hs, rfl⟩
      rw [author_rating_eq_some conf as s hs]
      simp
    · rw [author_rating, if_neg h]
      intro h2
      cases h2

/-- `rate_ticket` skips a ticket exactly when one of the four filter
conditions fires or the redundancy vector ends in a falsy element. -/
theorem rate_ticket_eq_none_iff (t : Ticket) (conf : Conf) :
    rate_ticket t conf = none ↔
      (t.spkgs ≠ [] ∨ t.patches = [] ∨
        (∃ d ∈ t.depends_on, dep_blocks conf.base d = true) ∨
        (∃ a ∈ t.authors, conf.trusted_authors.contains a = false) ∨
        (redundancy_vector t conf).getLast? = some 0) := by
  unfold rate_ticket
  split
  · next h1 => simp [h1]
  · next h1 =>
    split
    · next h2 => simp [h1, h2]
    · next h2 =>
      split
      · next h3 =>
        rw [List.any_eq_true] at h3
        simp [h1, h2, h3]
      · next h3 =>
        rw [List.any_eq_true] at h3
        push_neg at h3
        cases har : author_rating conf t.authors with
        | none =>
          have hex := (author_rating_eq_none_iff conf t.authors).mp har
          have hex2 : ∃ a ∈ t.authors, a ∉ conf.trusted_authors := by
            simpa using hex
          simp [h1, h2, hex2]
        | some ar =>
          have hnone : ¬ ∃ a ∈ t.authors, conf.trusted_authors.contains a = false := by
            intro hex
            rw [← author_rating_eq_none_iff conf t.authors] at hex
            rw [har] at hex
            cases hex
          dsimp only
          split
          · next h4 => simp [h1, h2, h4]
          · next h4 =>
            constructor
            · intro hc
              cases hc
            · rintro (hc | hc | hc | hc | hc)
              · exact absurd hc h1
              · exact absurd hc h2
              · obtain ⟨d, hd, hdb⟩ := hc
                exact absurd hdb (by simpa using h3 d hd)
              · refine absurd ?_ hnone
                obtain ⟨a, ha, ha2⟩ := hc
                exact ⟨a, ha, by simpa using ha2⟩
              · exact absurd hc h4

/-- The score `rate_ticket` returns for a non-skipped ticket: the
redundancy vector, the full rating sum, and the negated id. -/
theorem rate_ticket_eq_some (t : Ticket) (conf : Conf) (s : Score)
    (h : rate_ticket t conf = some s) :
    s.1 = redundancy_vector t conf ∧
    s.2.1 = (t.authors.map (lookup_bonus conf.bonus)).sum
      + (t.participants.map (lookup_bonus conf.bonus)).sum
      + (t.participants.length : Int)
      + (match t.component with
         | some c => lookup_bonus conf.bonus c
         | none => 0)
      + lookup_bonus conf.bonus t.status
      + lookup_bonus conf.bonus t.priority
      + lookup_bonus conf.bonus (toString t.id) ∧
    s.2.2 = -t.id ∧
    (redundancy_vector t conf).getLast? ≠ some 0 := by
  unfold rate_ticket at h
  split at h
  · cases h
  · split at h
    · cases h
    · split at h
      · cases h
      · cases har : author_rating conf t.authors with
        | none =>
          rw [har] at h
          cases h
        | some ar =>
          rw [har] at h
          dsimp only at h
          split at h
          · cases h
          · next h4 =>
            cases h
            refine ⟨rfl, ?_, rfl, h4⟩
            rw [author_rating_eq_some conf t.authors ar har]

/-! Concrete inputs for the counterexamples and witnesses. -/

/-- A configuration trusting only `alice`, with an empty bonus table. -/
def c1_conf : Conf := ⟨"5.0", ["alice"], [], ["deb", "11", "x86", "h1"], some 3⟩

/-- A ticket passing all four filter conditions but already covered by a
report from the very machine of `c1_conf`. -/
def c1_ticket : Ticket :=
  ⟨7, ["alice"], [], ["p1"], [], [], none, "needs_review", "major", false,
    [⟨["deb", "11", "x86", "h1"], "5.0", "TestsPassed"⟩]⟩

/-- C1 (counterexample): for `c1_ticket` under `c1_conf`, `rate_ticket`
skips (returns no score) although the unresolved-package list is empty,
the patch list is non-empty, no dependency compares newer than the base
and every author is trusted — the redundancy check is a further skip
cause, refuting the claim's "exactly when". -/
theorem C1_counterexample :
    rate_ticket c1_ticket c1_conf = none ∧
    c1_ticket.spkgs = [] ∧
    c1_ticket.patches ≠ [] ∧
    (∀ d ∈ c1_ticket.depends_on, dep_blocks c1_conf.base d = false) ∧
    (∀ a ∈ c1_ticket.authors, c1_conf.trusted_authors.contains a = true) := by
  decide

/-- C1 (amended): `rate_ticket` returns no score exactly when the
unresolved-package list is non-empty, the patch list is empty, some
dependency is a version-style identifier newer than the configured base,
some author is outside the trusted set, or the redundancy vector computed
from the prior reports ends in a falsy element. -/
theorem C1_skip_conditions : ∀ (t : Ticket) (conf : Conf),
    rate_ticket t conf = none ↔
      (t.spkgs ≠ [] ∨ t.patches = [] ∨
        (∃ d ∈ t.depends_on, dep_blocks conf.base d = true) ∨
        (∃ a ∈ t.authors, conf.trusted_authors.contains a = false) ∨
        (redundancy_vector t conf).getLast? = some 0) :=
  rate_ticket_eq_none_iff

/-- The configuration of the end-to-end example: bonus table
`{needs_review: 1000}`. -/
def c2_conf : Conf :=
  ⟨"5.0", ["alice"], [("needs_review", 1000)], ["deb", "11", "x86", "h1"], some 3⟩

/-- The ticket of the end-to-end example: id 100, one patch, author and
participant `alice`, status `needs_review`, priority `major`, no prior
reports. -/
def c2_ticket : Ticket :=
  ⟨100, ["alice"], ["alice"], ["p1"], [], [], none, "needs_review", "major",
    false, []⟩

/-- C2: a non-skipped ticket's rating is the sum of the authors' bonuses,
the participants' bonuses, the participant count, and the bonuses for
component, status, priority and stringified id, each defaulting to 0; and
the end-to-end example with bonus `{needs_review: 1000}` keeps the maximal
sentinel redundancy and rates `1000 + 1 + 0`. -/
theorem C2_rating_formula :
    (∀ (t : Ticket) (conf : Conf) (red : List Nat) (rating tid : Int),
        rate_ticket t conf = some (red, rating, tid) →
        rating = (t.authors.map (lookup_bonus conf.bonus)).sum
          + (t.participants.map (lookup_bonus conf.bonus)).sum
          + (t.participants.length : Int)
          + (match t.component with
             | some c => lookup_bonus conf.bonus c
             | none => 0)
          + lookup_bonus conf.bonus t.status
          + lookup_bonus conf.bonus t.priority
          + lookup_bonus conf.bonus (toString t.id)) ∧
    rate_ticket c2_ticket c2_conf = some ([100], 1001, -100) := by
  constructor
  · intro t conf red rating tid h
    exact (rate_ticket_eq_some t conf _ h).2.1
  · decide

/-- C2 witness: the rating formula evaluated at the end-to-end example. -/
theorem C2_witness :
    (1001 : Int) = (c2_ticket.authors.map (lookup_bonus c2_conf.bonus)).sum
      + (c2_ticket.participants.map (lookup_bonus c2_conf.bonus)).sum
      + (c2_ticket.participants.length : Int)
      + (match c2_ticket.component with
         | some c => lookup_bonus c2_conf.bonus c
         | none => 0)
      + lookup_bonus c2_conf.bonus c2_ticket.status
      + lookup_bonus c2_conf.bonus c2_ticket.priority
      + lookup_bonus c2_conf.bonus (toString c2_ticket.id) :=
  C2_rating_formula.1 c2_ticket c2_conf [100] 1001 (-100) (by decide)

/-- C3: unless the ticket is flagged retry, the redundancy vector is the
lexicographically smallest machine-comparison vector over the prior
reports at the configured base, starting from (and bounded by) the
maximal sentinel `[100]`; with no prior reports at the base it stays the
sentinel; a retry ticket keeps the sentinel and is never skipped for
redundancy; and, when none of the earlier filter conditions fire, the
ticket is skipped exactly when the vector's trailing element is falsy. -/
theorem C3_redundancy : ∀ (t : Ticket) (conf : Conf),
    (t.retry = true → redundancy_vector t conf = [100]) ∧
    (current_reports t conf.base = [] → redundancy_vector t conf = [100]) ∧
    (t.retry = false →
      ((redundancy_vector t conf = [100] ∨
        ∃ r ∈ current_reports t conf.base,
          redundancy_vector t conf =
            compare_machines r.machine conf.machine conf.machine_match) ∧
       listLeb (redundancy_vector t conf) [100] = true ∧
       ∀ r ∈ current_reports t conf.base,
         listLeb (redundancy_vector t conf)
           (compare_machines r.machine conf.machine conf.machine_match) = true)) ∧
    (t.retry = true → (redundancy_vector t conf).getLast? ≠ some 0) ∧
    (t.spkgs = [] → t.patches ≠ [] →
      (∀ d ∈ t.depends_on, dep_blocks conf.base d = false) →
      (∀ a ∈ t.authors, conf.trusted_authors.contains a = true) →
      (rate_ticket t conf = none ↔
        (redundancy_vector t conf).getLast? = some 0)) := by
  intro t conf
  have hretry : t.retry = true → redundancy_vector t conf = [100] := by
    intro h
    rw [redundancy_vector, if_pos h]
  refine ⟨hretry, ?_, ?_, ?_, ?_⟩
  · intro h
    rw [redundancy_vector]
    split
    · rfl
    · rw [h]
      rfl
  · intro h
    rw [redundancy_vector, if_neg (by simp [h])]
    exact foldl_listMin_spec
      (fun r => compare_machines r.machine conf.machine conf.machine_match)
      (current_reports t conf.base) [100]
  · intro h
    rw [hretry h]
    decide
  · intro h1 h2 h3 h4
    rw [rate_ticket_eq_none_iff]
    constructor
    · rintro (hc | hc | hc | hc | hc)
      · exact absurd h1 hc
      · exact absurd hc h2
      · obtain ⟨d, hd, hdb⟩ := hc
        rw [h3 d hd] at hdb
        cases hdb
      · obtain ⟨a, ha, haf⟩ := hc
        rw [h4 a ha] at haf
        cases haf
      · exact hc
    · intro h
      right; right; right; right
      exact h

/-- C3 witness: the skip-iff-trailing-falsy equivalence evaluated at the
end-to-end ticket, which has no prior reports. -/
theorem C3_witness :
    rate_ticket c2_ticket c2_conf = none ↔
      (redundancy_vector c2_ticket c2_conf).getLast? = some 0 :=
  (C3_redundancy c2_ticket c2_conf).2.2.2.2 (by decide) (by decide)
    (by decide) (by decide)

/-- A four-element machine signature. -/
def c4_a : List String := ["x", "y", "z", "w"]

/-- A three-element machine signature agreeing with `c4_a` on its first
three elements. -/
def c4_b : List String := ["x", "y", "z"]

/-- C4 (counterexample): the signatures `c4_a` and `c4_b` have different
lengths, yet with prefix depth 3 `compare_machines` returns `[0, 0, 0]`
— no trailing flag is appended, and the pair is judged fully redundant. -/
theorem C4_counterexample :
    c4_a.length ≠ c4_b.length ∧
    compare_machines c4_a c4_b (some 3) = [0, 0, 0] ∧
    (compare_machines c4_a c4_b (some 3)).getLast? = some 0 := by
  decide

/-- C4 (amended): whenever the two signatures truncated to the configured
prefix depth differ in length — in particular for any length mismatch
when no depth is configured — the comparison vector ends in the trailing
flag `1`, so the pair is never judged fully redundant. -/
theorem C4_length_mismatch : ∀ (a b : List String) (mm : Option Nat),
    (truncate_machine mm a).length ≠ (truncate_machine mm b).length →
    (compare_machines a b mm).getLast? = some 1 ∧
    (compare_machines a b mm).getLast? ≠ some 0 := by
  intro a b mm h
  have hl : (compare_machines a b mm).getLast? = some 1 := by
    rw [compare_machines, if_neg h]
    exact List.getLast?_concat _
  refine ⟨hl, ?_⟩
  rw [hl]
  simp

/-- C4 witness: the amended statement evaluated at a one-element and an
empty signature with no configured depth. -/
theorem C4_witness :
    (compare_machines ["x"] [] none).getLast? = some 1 ∧
    (compare_machines ["x"] [] none).getLast? ≠ some 0 :=
  C4_length_mismatch ["x"] [] none (by decide)

/-- A configuration trusting only `alice`. -/
def c9_conf : Conf := ⟨"5.0", ["alice"], [], ["m1"], some 3⟩

/-- A ticket authored by the trusted `alice` with the untrusted `bob` as
participant. -/
def c9_ticket : Ticket :=
  ⟨7, ["alice"], ["bob"], ["p1"], [], [], none, "needs_work", "minor",
    false, []⟩

/-- C9 (counterexample): `c9_ticket` has the participant `bob`, who is
outside the trusted-author set of `c9_conf`, and is still scored — an
untrusted participant does not prevent candidacy. -/
theorem C9_counterexample :
    rate_ticket c9_ticket c9_conf = some ([100], 1, -7) ∧
    "bob" ∈ c9_ticket.participants ∧
    "bob" ∉ c9_conf.trusted_authors := by
  decide

/-- C9 (amended): only authors are checked against the trusted set: every
author of a scored ticket is trusted (participants, as `C9_counterexample`
shows, need not be). -/
theorem C9_trusted_authors_only : ∀ (t : Ticket) (conf : Conf) (s : Score),
    rate_ticket t conf = some s → ∀ a ∈ t.authors, a ∈ conf.trusted_authors := by
  intro t conf s h a ha
  by_contra hc
  have hnone : rate_ticket t conf = none := by
    rw [rate_ticket_eq_none_iff]
    right; right; right; left
    exact ⟨a, ha, by simpa using hc⟩
  rw [hnone] at h
  cases h

/-- C9 witness: the amended statement evaluated at `c9_ticket`. -/
theorem C9_witness : "alice" ∈ c9_conf.trusted_authors :=
  C9_trusted_authors_only c9_ticket c9_conf ([100], 1, -7) (by decide)
    "alice" (by decide)

/-- With equal redundancy vectors, the score order comes down to rating,
then to the negated id. -/
theorem scoreLeb_same_red {x y : Score} (h : scoreLeb x y = true)
    (he : x.1 = y.1) :
    x.2.1 ≤ y.2.1 ∧ (x.2.1 = y.2.1 → x.2.2 ≤ y.2.2) := by
  simp only [scoreLeb, Bool.or_eq_true, Bool.and_eq_true, decide_eq_true_eq] at h
  rcases h with h | ⟨_, h⟩
  · rw [he, listLtb_irrefl] at h
    cases h
  · rcases h with h | ⟨f, g⟩
    · exact ⟨le_of_lt h, fun hf => absurd hf (ne_of_lt h)⟩
    · exact ⟨le_of_eq f, fun _ => g⟩

/-- C5: list mode returns exactly the scored candidates, sorted ascending
in the `(redundancy, rating, -id)` order; single mode returns a scored
candidate that is maximal in that order, so among candidates with its
redundancy vector it has the greatest rating, and among those with its
redundancy vector and rating the third component (the negated id, as the
scorer produces it) is greatest, i.e. the id is least. -/
theorem C5_selector : ∀ (conf : Conf) (tickets : List Ticket),
    List.Perm (get_ticket_all conf tickets) (scored_pairs conf tickets) ∧
    List.Sorted pairLE (get_ticket_all conf tickets) ∧
    (∀ (t : Ticket) (s : Score), rate_ticket t conf = some s → s.2.2 = -t.id) ∧
    (∀ p, get_ticket conf tickets = some p →
      p ∈ scored_pairs conf tickets ∧
      ∀ q ∈ scored_pairs conf tickets,
        scoreLeb q.1 p.1 = true ∧
        (q.1.1 = p.1.1 → q.1.2.1 ≤ p.1.2.1 ∧
          (q.1.2.1 = p.1.2.1 → q.1.2.2 ≤ p.1.2.2))) := by
  intro conf tickets
  refine ⟨List.perm_insertionSort pairLE _,
    List.sorted_insertionSort pairLE _, ?_, ?_⟩
  · intro t s h
    exact (rate_ticket_eq_some t conf s h).2.2.1
  · intro p hp
    have hperm := List.perm_insertionSort pairLE (scored_pairs conf tickets)
    have hpmem : p ∈ get_ticket_all conf tickets := getLast?_mem hp
    refine ⟨hperm.mem_iff.mp hpmem, ?_⟩
    intro q hq
    have hqmem : q ∈ get_ticket_all conf tickets := hperm.mem_iff.mpr hq
    have hle := sorted_getLast?_max
      (List.sorted_insertionSort pairLE (scored_pairs conf tickets)) hp q hqmem
    exact ⟨hle, fun he => scoreLeb_same_red hle he⟩

/-- The selector configuration of the witness: trusts `alice`, bonus
`{needs_review: 1000}`. -/
def c5_conf : Conf := ⟨"5.0", ["alice"], [("needs_review", 1000)], ["m"], some 3⟩

/-- A candidate with the status bonus. -/
def c5_t1 : Ticket :=
  ⟨1, ["alice"], [], ["p"], [], [], none, "needs_review", "major", false, []⟩

/-- A candidate without the status bonus. -/
def c5_t2 : Ticket :=
  ⟨2, ["alice"], [], ["p"], [], [], none, "needs_info", "major", false, []⟩

/-- C5 witness: the selector evaluated on a two-candidate pool picks the
higher-rated candidate and dominates the other's score. -/
theorem C5_witness :
    get_ticket c5_conf [c5_t1, c5_t2] = some (([100], 1000, -1), c5_t1) ∧
    (([100], 0, -2), c5_t2) ∈ scored_pairs c5_conf [c5_t1, c5_t2] ∧
    scoreLeb ([100], 0, -2) ([100], 1000, -1) = true := by
  refine ⟨by decide, by decide, ?_⟩
  exact (((C5_selector c5_conf [c5_t1, c5_t2]).2.2.2
    (([100], 1000, -1), c5_t1) (by decide)).2
    (([100], 0, -2), c5_t2) (by decide)).1

/-! The pipeline claims. -/

/-- The plugin loop records one `(name, passed)` pair for each configured
plugin: a plugin passes exactly when its call does not raise. -/
theorem run_plugins_eq_map (l : List (String × Bool)) :
    run_plugins l = l.map (fun p => (p.1, !p.2)) := by
  induction l with
  | nil => rfl
  | cons a l ih =>
    cases a with
    | mk n r => simp [run_plugins, ih]

/-- The recorded results are all passes exactly when no plugin raised. -/
theorem run_plugins_all_passed (l : List (String × Bool)) :
    (run_plugins l).all (fun p => p.2) = !(l.any (fun p => p.2)) := by
  induction l with
  | nil => rfl
  | cons a l ih =>
    cases a with
    | mk n r => simp [run_plugins, ih, Bool.not_or]

/-- C6: the reported status is the image of the last completed stage under
the `status` table — `ApplyFailed` for a failing apply (with no plugin and
no test execution), `BuildFailed` for a failing build, `TestsFailed` for a
failing test stage — and `PluginFailed` is reported exactly when all three
stages succeeded and some plugin raised, so a stage failure always takes
precedence over plugin outcomes. -/
theorem C6_executor : ∀ w : PipelineWorld,
    (w.apply_ok = false →
      status (test_a_ticket w).state = some "ApplyFailed" ∧
      (test_a_ticket w).plugins_results = [] ∧
      (test_a_ticket w).plugins_ran = 0 ∧
      (test_a_ticket w).tests_ran = false) ∧
    (w.apply_ok = true → w.build_ok = false →
      status (test_a_ticket w).state = some "BuildFailed") ∧
    (w.apply_ok = true → w.build_ok = true → w.tests_ok = false →
      status (test_a_ticket w).state = some "TestsFailed") ∧
    (status (test_a_ticket w).state = some "PluginFailed" ↔
      (w.apply_ok = true ∧ w.build_ok = true ∧ w.tests_ok = true ∧
        w.plugins.any (fun p => p.2) = true)) := by
  rintro ⟨a, b, ts, pl⟩
  cases a
  · simp [test_a_ticket, status]
  · cases b
    · simp [test_a_ticket, status]
    · cases ts
      · simp [test_a_ticket, status]
      · cases hany : pl.any (fun p => p.2)
        · simp [test_a_ticket, status, run_plugins_all_passed, hany]
        · simp [test_a_ticket, status, run_plugins_all_passed, hany]

/-- C6 witness: the failing-apply conjunct evaluated at a world whose
apply stage fails. -/
theorem C6_witness :
    status (test_a_ticket ⟨false, true, true, []⟩).state = some "ApplyFailed" ∧
    (test_a_ticket ⟨false, true, true, []⟩).plugins_results = [] ∧
    (test_a_ticket ⟨false, true, true, []⟩).plugins_ran = 0 ∧
    (test_a_ticket ⟨false, true, true, []⟩).tests_ran = false :=
  (C6_executor ⟨false, true, true, []⟩).1 rfl

/-- The plugin world of the C7 witness: both stages succeed, the second of
two plugins raises. -/
def c7_world : PipelineWorld := ⟨true, true, true, [("a", false), ("b", true)]⟩

/-- C7: once the build stage is reached, every configured plugin runs —
a raising plugin is recorded as a fail and does not stop the loop — the
pipeline still reaches the test stage, and exactly one `(name, outcome)`
pair per configured plugin is recorded, in configured order. -/
theorem C7_plugin_isolation : ∀ w : PipelineWorld,
    w.apply_ok = true → w.build_ok = true →
    (test_a_ticket w).plugins_results = w.plugins.map (fun p => (p.1, !p.2)) ∧
    (test_a_ticket w).tests_ran = true ∧
    (test_a_ticket w).plugins_ran = w.plugins.length ∧
    (test_a_ticket w).plugins_results.map (fun p => p.1)
      = w.plugins.map (fun p => p.1) := by
  rintro ⟨a, b, ts, pl⟩ h1 h2
  cases h1
  cases h2
  cases ts
  · simp [test_a_ticket, run_plugins_eq_map]
  · cases hall : (pl.map (fun p => (p.1, !p.2))).all (fun p => p.2)
    · simp [test_a_ticket, run_plugins_eq_map, hall]
    · simp [test_a_ticket, run_plugins_eq_map, hall]

/-- C7 witness: the plugin-isolation statement evaluated at `c7_world`. -/
theorem C7_witness :
    (test_a_ticket c7_world).plugins_results
      = c7_world.plugins.map (fun p => (p.1, !p.2)) ∧
    (test_a_ticket c7_world).tests_ran = true ∧
    (test_a_ticket c7_world).plugins_ran = c7_world.plugins.length ∧
    (test_a_ticket c7_world).plugins_results.map (fun p => p.1)
      = c7_world.plugins.map (fun p => p.1) :=
  C7_plugin_isolation c7_world rfl rfl

/-- A run of the retry loop in which every attempted post fails makes one
post and one sleep per remaining iteration and never succeeds. -/
theorem report_retry_all_fail (f : Nat → Bool) : ∀ (n i : Nat),
    (∀ j, j < n → f (i + j) = false) →
    report_retry f i n = ⟨n, n, false⟩ := by
  intro n
  induction n with
  | zero => intro i _; rfl
  | succ n ih =>
    intro i h
    have hf : f i = false := by simpa using h 0 (by omega)
    rw [report_retry, if_neg (by simp [hf]),
      ih (i + 1) (fun j hj => by
        have hij := h (j + 1) (by omega)
        rwa [show i + (j + 1) = i + 1 + j by omega] at hij)]

/-- C8: when every transport attempt fails, the reporting loop makes
exactly 5 post attempts, sleeps the idle interval after each of the 5
failures, never records a success, and falls through to the logging
branch (the model is a total function, so it returns rather than
raising). -/
theorem C8_reporter : ∀ succeeds : Nat → Bool,
    (∀ i, i < 5 → succeeds i = false) →
    report_with_retries succeeds = ⟨5, 5, false⟩ := by
  intro f h
  exact report_retry_all_fail f 5 0 (fun j hj => by simpa using h j hj)

/-- C8 witness: the reporting loop evaluated under an always-failing
transport. -/
theorem C8_witness :
    report_with_retries (fun _ => false) = ⟨5, 5, false⟩ :=
  C8_reporter (fun _ => false) (fun _ _ => rfl)

/-! The baseline self-test claim. -/

/-- The baseline configuration of the counterexample. -/
def c10_conf : Conf := ⟨"5.0", [], [], ["deb", "11", "x86", "h1"], some 3⟩

/-- The clean ticket (id 0) carrying a passing report from a machine that
agrees with `c10_conf`'s on the first three signature elements but has a
different hostname. -/
def c10_clean : Ticket :=
  ⟨0, [], [], [], [], [], none, "new", "major", false,
    [⟨["deb", "11", "x86", "h2"], "5.0", "TestsPassed"⟩]⟩

/-- C10 (counterexample): a passing report whose machine signature matches
the configured one on the whole match depth (3) but not in full does NOT
suppress the baseline self-test — `good` compares full signatures, not
prefixes. -/
theorem C10_counterexample :
    skip_base_check c10_conf c10_clean "5.0" = false ∧
    ∃ r ∈ current_reports c10_clean "5.0",
      r.status = "TestsPassed" ∧ machine_equiv_claimed c10_conf r.machine = true := by
  decide

/-- C10 (amended): the baseline self-test of ticket 0 is skipped exactly
when some current report at the local base has status `TestsPassed` and a
machine signature exactly equal to the configured one (full equality, not
prefix equivalence). -/
theorem C10_baseline : ∀ (conf : Conf) (clean : Ticket) (base : String),
    skip_base_check conf clean base = true ↔
      ∃ r ∈ current_reports clean base,
        r.machine = conf.machine ∧ r.status = "TestsPassed" := by
  intro conf clean base
  simp only [skip_base_check, List.any_eq_true, good, Bool.and_eq_true, beq_iff_eq]

end Patchbot
